import Mathlib

/-!
Verification of the SMW SPD formatter consolidation pipeline.

This file gives a shallow embedding, in Lean, of the data transformations
performed by the formatter script (src/smw-new.py): UPC/SKU normalization,
the per-file box-offset fold of the multi-file consolidator, the
routing-based regrouping of box numbers, the pivot aggregation, the
box-dimension post-merge pipeline, the single-file formatter's cleaning
step, and the per-file error-isolation control flow.  Spreadsheet I/O,
styling and the web front end are external collaborators and are modelled
only through their values (cell contents, per-file parse outcomes).

Conventions: pandas NaN cells are modelled as `Option.none` (for columns
where the code calls `dropna`) or as an explicit `nan` constructor where
the distinction between a NaN cell and an empty-string cell matters;
Python ints are `Int`; Python strings are `String` (code-point
comparisons, as in Python).  All definitions are executable.
-/

namespace SMW

/-! ### Generic list helpers -/

/-- Index of the first occurrence of `a` in a list (0 when absent past the end). -/
def idxOf {α : Type} [DecidableEq α] (a : α) : List α → Nat
  | [] => 0
  | b :: bs => if b = a then 0 else idxOf a bs + 1

/-- The distinct elements of a list in order of first appearance
(the order in which a dict keyed on the elements acquires its keys). -/
def firstOccurrences {α : Type} [DecidableEq α] : List α → List α
  | [] => []
  | a :: rest => a :: (firstOccurrences rest).filter (fun b => decide (b ≠ a))

/-- Maximum of a list of integers as computed by a pandas `Series.max`
on a nonempty column; the `[]` case is never reached by callers
(they guard on nonemptiness, as the source does). -/
def pdMax : List Int → Int
  | [] => 0
  | x :: xs => xs.foldl max x

/-- Stable insertion of `a` into a list, placing `a` before the first
element `b` with `le a b`. -/
def insertLe {α : Type} (le : α → α → Bool) (a : α) : List α → List α
  | [] => [a]
  | b :: bs => if le a b then a :: b :: bs else b :: insertLe le a bs

/-- Stable comparison sort (extensionally equal, on the lists this file
sorts, to the sorts used by the source: Python `sorted` is stable and the
pandas sort is applied to columns whose relevant keys are distinct). -/
def sortLe {α : Type} (le : α → α → Bool) : List α → List α
  | [] => []
  | a :: as => insertLe le a (sortLe le as)

/-! ### Python string primitives used by the source -/

/-- Lexicographic code-point comparison of character lists,
as Python compares strings. -/
def charListLe : List Char → List Char → Bool
  | [], _ => true
  | _ :: _, [] => false
  | a :: as, b :: bs =>
    if a = b then charListLe as bs else Nat.blt a.toNat b.toNat

/-- Python `str.__le__`: lexicographic comparison by code point. -/
def pyStrLe (a b : String) : Bool := charListLe a.data b.data

/-- ASCII lowercasing of one character (`str.lower` restricted to the
ASCII letters that occur in the data this pipeline handles). -/
def asciiLowerChar (c : Char) : Char :=
  if 65 ≤ c.toNat ∧ c.toNat ≤ 90 then Char.ofNat (c.toNat + 32) else c

/-- Python `str.lower` on ASCII strings. -/
def pyLower (s : String) : String := ⟨s.data.map asciiLowerChar⟩

/-- Python `str.zfill w`: left-pad with zeros up to width `w`; a leading
sign stays in front of the padding; strings already of length `≥ w` are
returned unchanged. -/
def pyZfill (s : String) (w : Nat) : String :=
  if w ≤ s.data.length then s
  else
    match s.data with
    | [] => ⟨List.replicate w '0'⟩
    | c :: rest =>
      if c = '+' ∨ c = '-' then ⟨c :: (List.replicate (w - (c :: rest).length) '0' ++ rest)⟩
      else ⟨List.replicate (w - (c :: rest).length) '0' ++ (c :: rest)⟩

/-- Whether a string ends in the two characters `.0`
(the match of the regex pattern backslash-dot-zero-dollar). -/
def endsWithDot0 (s : String) : Bool :=
  match s.data.reverse with
  | '0' :: '.' :: _ => true
  | _ => false

/-- Replacement, by the empty string, of the regex match of a trailing
`.0`: drops a trailing `.0` artifact when present. -/
def stripDot0 (s : String) : String :=
  if endsWithDot0 s then ⟨s.data.dropLast.dropLast⟩ else s

/-- Removal of every `+` character (`str.replace` by the empty string). -/
def stripPlusChars (s : String) : String := ⟨s.data.filter (fun c => c != '+')⟩

/-- All characters of the string are decimal digits. -/
def allDigits (s : String) : Bool := s.data.all (fun c => c.isDigit)

/-! ### UPC normalization (BoxSequenceNormalizer)

The multi-file section normalizes the UPC column by stripping a trailing
`.0` and zero-filling to width 12; the single-file section additionally
removes every `+` character before zero-filling. -/

/-- UPC normalization of the multi-file consolidator:
`astype(str)`, strip a trailing `.0`, `zfill(12)`.  (No `+` stripping.) -/
def normalizeUPCMulti (s : String) : String := pyZfill (stripDot0 s) 12

/-- UPC normalization of the single-file formatter:
`astype(str)`, strip a trailing `.0`, remove every `+`, `zfill(12)`. -/
def normalizeUPCSingle (s : String) : String := pyZfill (stripPlusChars (stripDot0 s)) 12

/-! ### Single-file formatter: cleaning (Section 3 of the source) -/

/-- A `Sku Units` cell after `pd.to_numeric(errors := coerce)`:
either a numeric value (already truncated to an integer by the
subsequent `astype(int)`) or a non-numeric cell coerced to NaN. -/
inductive SkuCell where
  | num (n : Int)
  | nonNum
  deriving DecidableEq

/-- The chain `to_numeric`, `fillna(0)`, `astype(int)` applied to one cell. -/
def skuCellToInt : SkuCell → Int
  | .num n => n
  | .nonNum => 0

/-- One raw detail row of the single-file formatter, as read with
`header = 10`: `UPC` (None = NaN), `Box X`, `Sku Units` (None = NaN). -/
structure SRow where
  upc : Option String
  boxX : Int
  skuUnits : Option SkuCell
  deriving DecidableEq

/-- One cleaned detail row (columns `UPC`, `Box Number`, `Qty`). -/
structure CleanRow where
  upc : String
  boxNumber : Int
  qty : Int
  deriving DecidableEq

/-- The single-file cleaning step: `dropna(subset = [UPC, Sku Units])`,
UPC normalization, quantity coercion, and the column renames
`Box X → Box Number`, `Sku Units → Qty`.  The `Box X` value is carried
over unchanged. -/
def dfCleanSingle (rows : List SRow) : List CleanRow :=
  (rows.filter (fun r => r.upc.isSome && r.skuUnits.isSome)).map (fun r =>
    { upc := normalizeUPCSingle (r.upc.getD (""))
      boxNumber := r.boxX
      qty := skuCellToInt (r.skuUnits.getD SkuCell.nonNum) })

/-- The `Box Number` column of the single-file cleaned table. -/
def boxNumbersSingle (rows : List SRow) : List Int :=
  (dfCleanSingle rows).map (fun r => r.boxNumber)

/-- Modelled from the spec: the reset-aware continuation policy
(maintain `current_box` and `last_seen_raw`; on `raw ≤ last_seen_raw`
increment `current_box` by one, otherwise adopt `raw` verbatim).  This
policy does not occur in the source file; it is defined here only to be
compared against what the single-file code actually does. -/
def resetAwareStep : Int → Int → List Int → List Int
  | _, _, [] => []
  | current, lastSeen, raw :: rest =>
    if raw ≤ lastSeen then (current + 1) :: resetAwareStep (current + 1) raw rest
    else raw :: resetAwareStep raw raw rest

/-- Modelled from the spec: reset-aware continuation policy over a raw
box-index column (first row: `current_box = raw`). -/
def resetAwareBoxNumbersSpec : List Int → List Int
  | [] => []
  | raw :: rest => raw :: resetAwareStep raw raw rest

/-! ### RoutingGrouper: regrouping by routing id (multi-file section)

The source walks the `Routing #` column keeping a dict
`routing_to_group` and a counter starting at 1; a routing id seen before
reuses its group id, a new one takes the next counter value. -/

/-- Lookup in the `routing_to_group` dict, modelled as an association list. -/
def seenLookup : List (String × Nat) → String → Option Nat
  | [], _ => none
  | (k, v) :: rest, r => if k = r then some v else seenLookup rest r

/-- The `for r in routing_series` loop of the source: emit the remembered
group id for a known routing id, otherwise assign the counter and bump it. -/
def routingGroupListAux : List (String × Nat) → Nat → List String → List Nat
  | _, _, [] => []
  | seen, ctr, r :: rest =>
    match seenLookup seen r with
    | some g => g :: routingGroupListAux seen ctr rest
    | none => ctr :: routingGroupListAux ((r, ctr) :: seen) (ctr + 1) rest

/-- Group-id column assigned to a routing-id column
(`final_contents["Box Number"] = group_list`). -/
def routingGroupList (routings : List String) : List Nat :=
  routingGroupListAux [] 1 routings

/-! Supporting lemmas about `firstOccurrences` and `idxOf`. -/

/-! ### GlobalRenumberer: offset-concatenation fold (multi-file section) -/

/-- One file's box-number processing: when the cleaned table is nonempty,
add the carried offset to every raw index and set the new offset to the
column maximum; a file with an empty cleaned table changes nothing. -/
def offsetStep (off : Int) (raws : List Int) : List Int × Int :=
  if raws.length > 0 then
    (raws.map (fun r => r + off), pdMax (raws.map (fun r => r + off)))
  else (raws, off)

/-- The per-file loop carrying `box_offset` across the batch, returning
every file's global box-number column and the final offset. -/
def offsetFoldAux : Int → List (List Int) → List (List Int) × Int
  | off, [] => ([], off)
  | off, f :: rest =>
    let s := offsetStep off f
    let t := offsetFoldAux s.2 rest
    (s.1 :: t.1, t.2)

/-- The whole batch processed starting from `box_offset = 0`. -/
def offsetFold (files : List (List Int)) : List (List Int) × Int :=
  offsetFoldAux 0 files

/-- The carried `box_offset` value after the first `k` files. -/
def offsetAfter (files : List (List Int)) (k : Nat) : Int :=
  (offsetFoldAux 0 (files.take k)).2

/-! ### Merged contents rows and the pivot (PivotAggregator) -/

/-- One row of the merged contents table
(columns `UPC`, `Box Number`, `Qty`, `Customer PO`, `Routing #`). -/
structure ContentRow where
  upc : String
  box : Int
  qty : Int
  po : String
  routing : String
  deriving DecidableEq

/-- The pivot's row index: the distinct UPC values.  (pandas sorts the
index; the index order is irrelevant to every property stated here, so the
distinct values are enumerated in first-appearance order.) -/
def pivotSkus (rows : List ContentRow) : List String :=
  firstOccurrences (rows.map (fun r => r.upc))

/-- The pivot's columns: the distinct box numbers (order irrelevant,
as for `pivotSkus`). -/
def pivotBoxCols (rows : List ContentRow) : List Int :=
  firstOccurrences (rows.map (fun r => r.box))

/-- One cell of `final_pivot` (equally of `pivot_for_sum`): the summed
quantity of the rows grouped under `(sku, box)`; absent groups give the
`fill_value` 0. -/
def finalPivotCell (rows : List ContentRow) (s : String) (b : Int) : Int :=
  ((rows.filter (fun r => decide (r.upc = s) && decide (r.box = b))).map
    (fun r => r.qty)).sum

/-- One cell of `final_pivot_display` (`final_pivot.replace(0, blank)`):
`none` renders as the blank cell. -/
def finalPivotDisplayCell (rows : List ContentRow) (s : String) (b : Int) : Option Int :=
  if finalPivotCell rows s b = 0 then none
  else some (finalPivotCell rows s b)

/-- A row total of the totals view (`pivot_for_sum.sum(axis = 1)`). -/
def pivotRowTotal (rows : List ContentRow) (s : String) : Int :=
  ((pivotBoxCols rows).map (finalPivotCell rows s)).sum

/-- A column total of the totals view (`pivot_for_sum.sum(axis = 0)`). -/
def pivotColumnTotal (rows : List ContentRow) (b : Int) : Int :=
  ((pivotSkus rows).map (fun s => finalPivotCell rows s b)).sum

/-- The grand total (`pivot_row_totals.sum()`), computed from the totals
view. -/
def grandTotalValue (rows : List ContentRow) : Int :=
  ((pivotSkus rows).map (pivotRowTotal rows)).sum

/-! ### Sorting by Customer PO, and the post-hoc alphabetical check -/

/-- The sort `final_contents.sort_values(by = Customer PO, ascending = True)`:
a comparison sort of the rows by the PO strings in Python string order
(lexicographic by code point, hence case-sensitive). -/
def sortByCustomerPO (rows : List ContentRow) : List ContentRow :=
  sortLe (fun a b => pyStrLe a.po b.po) rows

/-- The `Customer PO` column of a contents table. -/
def customerPOColumn (rows : List ContentRow) : List String :=
  rows.map (fun r => r.po)

/-- The post-hoc status check of the source: the written PO column is
compared against `sorted(values, key = lower)` — the case-insensitive
alphabetical order — and the sheet is stamped accordingly. -/
def poAlphabeticalCheck (pos : List String) : Bool :=
  decide (pos = sortLe (fun a b => pyStrLe (pyLower a) (pyLower b)) pos)

/-! ### Box dimensions (DimensionWeightCorrelator) -/

/-- A weight or dimension cell of the dimensions table: a numeric value,
the empty-string blank used by the padding step, or a NaN. -/
inductive DCell where
  | val (q : ℚ)
  | blankStr
  | nan
  deriving DecidableEq

/-- One row of a `df_dims` / `final_dims` table (columns `Box Number`,
`Weight`, `Length`, `Width`, `Height`, `Routing #`). -/
structure DimRow where
  boxNumber : Int
  weight : DCell
  length : DCell
  width : DCell
  height : DCell
  routing : String
  deriving DecidableEq

/-- Whether a cell is NaN (the only thing `dropna` looks for). -/
def dcellIsNan : DCell → Bool
  | .nan => true
  | _ => false

/-- Whether any of the four `dropna` subset columns of a row is NaN. -/
def dimRowHasNan (r : DimRow) : Bool :=
  dcellIsNan r.weight || dcellIsNan r.length || dcellIsNan r.width || dcellIsNan r.height

/-- The step `dropna(subset = [Weight, Length, Width, Height], how = any)`: drops
the rows with a NaN among the four columns.  The `""` blanks written by
the per-file padding are ordinary values, not NaN, and are kept. -/
def dropnaDims (rows : List DimRow) : List DimRow :=
  rows.filter (fun r => !dimRowHasNan r)

/-- The step `drop_duplicates(subset = [Routing], keep = first)`. -/
def dropDuplicatesByRouting : List DimRow → List DimRow
  | [] => []
  | r :: rest =>
    r :: (dropDuplicatesByRouting rest).filter (fun x => decide (x.routing ≠ r.routing))

/-- The reorder by the summary routing list (ordered-categorical sort):
rows are emitted in the order their routing id appears in the summary
list; rows whose routing id is absent become NaN categories and sort
last, kept here in their original relative order.  On the duplicate-free
routing columns this step receives (it runs after `drop_duplicates`),
this is exactly the pandas `sort_values` on the ordered categorical. -/
def reorderBySummaryRouting (rows : List DimRow) (order : List String) : List DimRow :=
  (order.filterMap (fun s => rows.find? (fun r => decide (r.routing = s))))
    ++ rows.filter (fun r => decide (r.routing ∉ order))

/-- Sequential renumbering of the `Box Number` column from `n` upward. -/
def renumberDimsFrom (n : Int) : List DimRow → List DimRow
  | [] => []
  | r :: rest => { r with boxNumber := n } :: renumberDimsFrom (n + 1) rest

/-- The post-merge dimension pipeline: when the merged table is nonempty,
dropna, dedup by routing keep-first, reorder by the summary routing order
(when that list is nonempty), then renumber `1..M`. -/
def finalDimsAssemble (rows : List DimRow) (summaryOrder : List String) : List DimRow :=
  if rows.isEmpty then []
  else
    renumberDimsFrom 1
      (if summaryOrder.isEmpty then dropDuplicatesByRouting (dropnaDims rows)
       else reorderBySummaryRouting (dropDuplicatesByRouting (dropnaDims rows)) summaryOrder)

/-! ### The multi-file per-file loop (ManifestParser boundary and
GlobalRenumberer, with its error handling) -/

/-- A raw `Box X` cell as seen by `astype(int)`: either a value the cast
converts, or one on which it raises (a non-numeric string, NaN, …). -/
inductive XCell where
  | intVal (n : Int)
  | bad
  deriving DecidableEq

/-- One raw detail row of the multi-file consolidator
(`UPC`, `Box X`, `Sku Units`; `none` is a NaN cell). -/
structure MFRow where
  upc : Option String
  boxX : XCell
  skuUnits : Option SkuCell
  deriving DecidableEq

/-- One input file as the per-file loop sees it: whether `read_excel`
succeeds, whether the three required columns are present after header
normalization, the detail rows, the extracted bold-cell weights and
dimension triples, and the header metadata (already defaulted to the
empty string when their extraction failed, as the source swallows those
errors). -/
structure MFile where
  readOk : Bool
  hasCols : Bool
  rows : List MFRow
  weights : List DCell
  dims : List (ℚ × ℚ × ℚ)
  po : String
  routing : String
  deriving DecidableEq

/-- The table `df_clean` before numeric work:
`dropna(subset = [UPC, Sku Units])`. -/
def cleanedRows (f : MFile) : List MFRow :=
  f.rows.filter (fun r => r.upc.isSome && r.skuUnits.isSome)

/-- The cast `astype(int)` on the cleaned `Box X` column: converts every cell or
raises on the first bad one (the exception is not caught by the loop). -/
def convertBoxColumn : List XCell → Except String (List Int)
  | [] => .ok []
  | XCell.intVal n :: rest => (convertBoxColumn rest).map (fun l => n :: l)
  | XCell.bad :: _ => .error ("cannot convert Box X column to int")

/-- The `Qty` of a cleaned row (`to_numeric`, `fillna(0)`, `astype(int)`). -/
def mfRowQty (r : MFRow) : Int := skuCellToInt (r.skuUnits.getD SkuCell.nonNum)

/-- The `i`-th row of one file's `df_dims`: box number from the file's
assigned range, weight and dimension triple by position, each list
right-padded with the `""` blank. -/
def dimRowAt (startBox : Int) (weights : List DCell) (dims : List (ℚ × ℚ × ℚ))
    (routing : String) (i : Nat) : DimRow :=
  { boxNumber := startBox + (i : Int)
    weight := (weights.get? i).getD DCell.blankStr
    length := ((dims.get? i).map (fun t => DCell.val t.1)).getD DCell.blankStr
    width := ((dims.get? i).map (fun t => DCell.val t.2.1)).getD DCell.blankStr
    height := ((dims.get? i).map (fun t => DCell.val t.2.2)).getD DCell.blankStr
    routing := routing }

/-- One file's `df_dims`: `num_boxes = max(len(weights), len(dims),
len(df_clean))` rows, numbered from `startBox`. -/
def mkDimRows (startBox : Int) (cleanLen : Nat) (weights : List DCell)
    (dims : List (ℚ × ℚ × ℚ)) (routing : String) : List DimRow :=
  (List.range (max (max weights.length dims.length) cleanLen)).map
    (dimRowAt startBox weights dims routing)

/-- What one file contributed to the running ledgers. -/
structure PerFileOut where
  contents : List ContentRow
  dimsRows : List DimRow
  deriving DecidableEq

/-- The recorded outcome for one file: skipped with a read warning,
skipped with a missing-columns warning, or processed. -/
inductive Outcome where
  | skippedRead
  | skippedCols
  | processed (p : PerFileOut)
  deriving DecidableEq

/-- The body of the per-file loop: read failures and missing columns are
caught (`continue` with a warning); the `astype(int)` box conversion is
not guarded, so its exception propagates out of the loop.  A nonempty
cleaned table shifts the box numbers by the carried offset and advances
it to the column maximum; an empty one leaves the offset unchanged and
numbers the file's dimension rows from `box_offset + 1`. -/
def stepFile (off : Int) (f : MFile) : Except String (Outcome × Int) :=
  if f.readOk = false then .ok (.skippedRead, off)
  else if f.hasCols = false then .ok (.skippedCols, off)
  else
    if (cleanedRows f).length > 0 then
      match convertBoxColumn ((cleanedRows f).map (fun r => r.boxX)) with
      | .error e => .error e
      | .ok raws =>
        .ok (.processed
          { contents := ((cleanedRows f).zip (raws.map (fun r => r + off))).map (fun p =>
              { upc := normalizeUPCMulti (p.1.upc.getD (""))
                box := p.2
                qty := mfRowQty p.1
                po := f.po
                routing := f.routing })
            dimsRows := mkDimRows (pdMax (raws.map (fun r => r + off))
                - ((cleanedRows f).length : Int) + 1)
              (cleanedRows f).length f.weights f.dims f.routing },
          pdMax (raws.map (fun r => r + off)))
    else
      .ok (.processed
        { contents := []
          dimsRows := mkDimRows (off + 1) (cleanedRows f).length f.weights f.dims f.routing },
        off)

/-- The per-file loop over the whole batch, carrying `box_offset` from 0;
an uncaught exception in one step aborts the remainder. -/
def processBatchAux (off : Int) : List MFile → Except String (List Outcome × Int)
  | [] => .ok ([], off)
  | f :: rest =>
    match stepFile off f with
    | .error e => .error e
    | .ok (o, off2) =>
      match processBatchAux off2 rest with
      | .error e => .error e
      | .ok (outs, offE) => .ok (o :: outs, offE)

/-- The batch processed from `box_offset = 0`. -/
def processBatch (files : List MFile) : Except String (List Outcome × Int) :=
  processBatchAux 0 files

/-- A file on which the loop body cannot raise: it is skipped at the read
step, skipped at the column check, or its cleaned `Box X` cells all
convert. -/
def fileNoConvError (f : MFile) : Prop :=
  f.readOk = false ∨ f.hasCols = false ∨ ∀ r ∈ cleanedRows f, r.boxX ≠ XCell.bad

/-- What the loop records for a file, as a function of its failure mode:
an unreadable file is skipped with the read warning, a readable file
missing required columns is skipped with the columns warning, and any
other file is processed. -/
def outcomeSpec (f : MFile) (o : Outcome) : Prop :=
  (f.readOk = false → o = Outcome.skippedRead) ∧
  (f.readOk = true → f.hasCols = false → o = Outcome.skippedCols) ∧
  (f.readOk = true → f.hasCols = true → ∃ p, o = Outcome.processed p)

instance fileNoConvErrorDecidable (f : MFile) : Decidable (fileNoConvError f) := by
  unfold fileNoConvError
  infer_instance

/-! ### Final assembly and the run boundary -/

/-- The consolidated workbook as far as its data content goes: the
`All Box Contents` rows, the `All Box Dimensions` rows, and the
`Summary` (Customer PO, Routing #) pairs. -/
structure Artifact where
  contents : List ContentRow
  dims : List DimRow
  summary : List (String × String)
  deriving DecidableEq

/-- What an outcome contributed to `consolidated_contents`. -/
def outcomeContents : Outcome → List ContentRow
  | .processed p => p.contents
  | _ => []

/-- What an outcome contributed to `consolidated_dims`. -/
def outcomeDims : Outcome → List DimRow
  | .processed p => p.dimsRows
  | _ => []

/-- Pairwise first-occurrence deduplication of the summary pairs
(`drop_duplicates` on the two columns, keep first). -/
def summaryPairs (rows : List ContentRow) : List (String × String) :=
  firstOccurrences (rows.map (fun r => (r.po, r.routing)))

/-- The concatenation `pd.concat(consolidated_contents)` over the batch outcomes. -/
def mergedContents (outs : List Outcome) : List ContentRow :=
  (outs.map outcomeContents).flatten

/-- The concatenation `pd.concat(consolidated_dims)` over the batch outcomes. -/
def mergedDims (outs : List Outcome) : List DimRow :=
  (outs.map outcomeDims).flatten

/-- Sort the merged contents by Customer PO, then overwrite `Box Number`
with the routing-id group number (RoutingGrouper). -/
def regroupedContents (rows : List ContentRow) : List ContentRow :=
  ((sortByCustomerPO rows).zip
    (routingGroupList ((sortByCustomerPO rows).map (fun r => r.routing)))).map
      (fun p => { p.1 with box := (p.2 : Int) })

/-- The final assembly after the loop: concatenate the per-file contents;
when nonempty, sort by Customer PO, regroup box numbers by routing id and
derive the summary; merge the dimension rows and run the post-merge
dimension pipeline keyed on the summary's routing order. -/
def assembleArtifact (outs : List Outcome) : Artifact :=
  if (mergedContents outs).isEmpty then
    { contents := []
      dims := finalDimsAssemble (mergedDims outs) []
      summary := [] }
  else
    { contents := regroupedContents (mergedContents outs)
      dims := finalDimsAssemble (mergedDims outs)
        ((summaryPairs (regroupedContents (mergedContents outs))).map (fun p => p.2))
      summary := summaryPairs (regroupedContents (mergedContents outs)) }

/-- The run boundary of the multi-file section: with no valid Excel file
extracted, a warning is shown and nothing is produced; otherwise the
batch is processed — an uncaught per-file exception escapes (no artifact,
error surfaced), and on success the assembled workbook is offered for
download (even when every file was skipped). -/
def runFormatter (files : List MFile) : Except String (Option Artifact) :=
  if files.isEmpty then .ok none
  else
    match processBatch files with
    | .error e => .error e
    | .ok (outs, _) => .ok (some (assembleArtifact outs))

/-! ## Theorems and supporting lemmas -/

/-- ZFILL-LEMMA: zero-filling a digit string of length at most 12 yields a
string of length exactly 12 consisting only of digits. -/
theorem pyZfill_digit_string (t : String) (hlen : t.data.length ≤ 12)
    (hdig : allDigits t = true) :
    (pyZfill t 12).data.length = 12 ∧ allDigits (pyZfill t 12) = true := by
  unfold pyZfill
  by_cases h12 : 12 ≤ t.data.length
  · simp only [h12, if_true]
    exact ⟨Nat.le_antisymm hlen h12, hdig⟩
  · simp only [h12, if_false]
    match ht : t.data with
    | [] =>
      refine ⟨by simp, ?_⟩
      simp only [allDigits, List.all_eq_true]
      intro c hc
      rw [List.eq_of_mem_replicate hc]
      decide
    | c :: rest =>
      have hcd : c.isDigit = true := by
        have h := hdig
        simp only [allDigits, ht, List.all_cons, Bool.and_eq_true] at h
        exact h.1
      have hcn : ¬(c = '+' ∨ c = '-') := by
        rintro (rfl | rfl) <;> simp [Char.isDigit] at hcd
      simp only [hcn, if_false]
      constructor
      · show (List.replicate (12 - (c :: rest).length) '0' ++ (c :: rest)).length = 12
        rw [List.length_append, List.length_replicate]
        have : (c :: rest).length ≤ 12 := by rw [← ht]; exact hlen
        omega
      · show (List.replicate (12 - (c :: rest).length) '0' ++ (c :: rest)).all _ = true
        rw [List.all_append, Bool.and_eq_true]
        constructor
        · simp only [List.all_eq_true]
          intro x hx
          rw [List.eq_of_mem_replicate hx]
          decide
        · have : (c :: rest).all (fun c => c.isDigit) = true := by
            simpa [allDigits, ht] using hdig
          exact this

/-- PLUS-LEMMA: removing `+` characters from a digit string changes nothing. -/
theorem stripPlusChars_of_digits (t : String) (hdig : allDigits t = true) :
    stripPlusChars t = t := by
  unfold stripPlusChars
  have : t.data.filter (fun c => c != '+') = t.data := by
    rw [List.filter_eq_self]
    intro a ha
    have : a.isDigit = true := (List.all_eq_true.mp hdig) a ha
    have hne : a ≠ '+' := by rintro rfl; simp [Char.isDigit] at this
    simpa using hne
  rw [this]

/-- Membership in the first-appearance list is plain membership. -/
theorem mem_firstOccurrences {α : Type} [DecidableEq α] (l : List α) (a : α) :
    a ∈ firstOccurrences l ↔ a ∈ l := by
  induction l with
  | nil => simp [firstOccurrences]
  | cons x xs ih =>
    simp only [firstOccurrences, List.mem_cons, List.mem_filter, decide_eq_true_eq]
    constructor
    · rintro (rfl | ⟨h, _⟩)
      · exact Or.inl rfl
      · exact Or.inr (ih.mp h)
    · rintro (rfl | h)
      · exact Or.inl rfl
      · by_cases hax : a = x
        · exact Or.inl hax
        · exact Or.inr ⟨ih.mpr h, hax⟩

/-- The first-appearance list has no duplicates. -/
theorem firstOccurrences_nodup {α : Type} [DecidableEq α] (l : List α) :
    (firstOccurrences l).Nodup := by
  induction l with
  | nil => simp [firstOccurrences]
  | cons x xs ih =>
    refine List.Nodup.cons ?_ (List.Nodup.filter _ ih)
    intro hmem
    have := (List.mem_filter.mp hmem).2
    simp at this

/-- First occurrences of an appended list: the left part's first
occurrences, then the right part's first occurrences not already seen. -/
theorem firstOccurrences_append {α : Type} [DecidableEq α] (l m : List α) :
    firstOccurrences (l ++ m)
      = firstOccurrences l
          ++ (firstOccurrences m).filter (fun b => decide (b ∉ l)) := by
  induction l with
  | nil =>
    simp only [List.nil_append, firstOccurrences, List.not_mem_nil]
    rw [List.filter_eq_self.mpr]
    intro a _
    simp
  | cons x xs ih =>
    simp only [List.cons_append, List.append_eq, firstOccurrences, ih, List.filter_append]
    rw [List.filter_filter]
    congr 2
    apply List.filter_congr
    intro b _
    by_cases h1 : b = x <;> by_cases h2 : b ∈ xs <;> simp [h1, h2]

/-- Index of an element of the left part of an append. -/
theorem idxOf_append_left {α : Type} [DecidableEq α] {a : α} {l : List α}
    (h : a ∈ l) (m : List α) : idxOf a (l ++ m) = idxOf a l := by
  induction l with
  | nil => simp at h
  | cons b bs ih =>
    by_cases hb : b = a
    · simp [idxOf, hb]
    · have hmem : a ∈ bs := by
        rcases List.mem_cons.mp h with h1 | h1
        · exact absurd h1.symm hb
        · exact h1
      simp [idxOf, hb, ih hmem]

/-- Index of an element absent from the left part of an append. -/
theorem idxOf_append_right {α : Type} [DecidableEq α] {a : α} {l : List α}
    (h : a ∉ l) (m : List α) : idxOf a (l ++ m) = l.length + idxOf a m := by
  induction l with
  | nil => simp [idxOf]
  | cons b bs ih =>
    have hb : b ≠ a := fun e => h (by rw [e]; exact List.mem_cons_self _ _)
    have h2 : a ∉ bs := fun e => h (List.mem_cons_of_mem _ e)
    simp only [List.cons_append, List.append_eq, idxOf, hb, if_false, ih h2,
      List.length_cons]
    omega

/-- INVARIANT: the regrouping loop, started from a dict and counter
consistent with an already-processed prefix, assigns to every remaining
routing id the (1-based) position of its first appearance in the whole
column. -/
theorem routingGroupListAux_spec :
    ∀ (rest pfx : List String) (seen : List (String × Nat)),
      (∀ r : String, seenLookup seen r =
        if r ∈ pfx then some (idxOf r (firstOccurrences pfx) + 1) else none) →
      routingGroupListAux seen ((firstOccurrences pfx).length + 1) rest
        = rest.map (fun r => idxOf r (firstOccurrences (pfx ++ rest)) + 1) := by
  intro rest
  induction rest with
  | nil => intro pfx seen _; simp [routingGroupListAux]
  | cons r rs ih =>
    intro pfx seen hseen
    have hfo_r : firstOccurrences [r] = [r] := by simp [firstOccurrences]
    by_cases hr : r ∈ pfx
    · have hfo : firstOccurrences (pfx ++ [r]) = firstOccurrences pfx := by
        rw [firstOccurrences_append, hfo_r]
        simp [hr]
      have htail := ih (pfx ++ [r]) seen (by
        intro x
        rw [hseen x, hfo]
        by_cases hx : x ∈ pfx
        · simp [hx, List.mem_append]
        · have : x ∉ pfx ++ [r] := by
            simp only [List.mem_append, List.mem_singleton]
            rintro (h1 | rfl)
            · exact hx h1
            · exact hx hr
          simp [hx, this])
      rw [hfo] at htail
      have hassoc : (pfx ++ [r]) ++ rs = pfx ++ (r :: rs) := by
        rw [List.append_assoc]; rfl
      rw [hassoc] at htail
      have hhead : idxOf r (firstOccurrences (pfx ++ (r :: rs))) = idxOf r (firstOccurrences pfx) := by
        rw [firstOccurrences_append]
        exact idxOf_append_left ((mem_firstOccurrences pfx r).mpr hr) _
      simp only [routingGroupListAux, hseen r, hr, if_true, List.map_cons, hhead, htail]
    · have hnotfo : r ∉ firstOccurrences pfx := fun h => hr ((mem_firstOccurrences pfx r).mp h)
      have hfo : firstOccurrences (pfx ++ [r]) = firstOccurrences pfx ++ [r] := by
        rw [firstOccurrences_append, hfo_r]
        simp [hr]
      have hlen : (firstOccurrences (pfx ++ [r])).length = (firstOccurrences pfx).length + 1 := by
        rw [hfo, List.length_append, List.length_singleton]
      have htail := ih (pfx ++ [r]) ((r, (firstOccurrences pfx).length + 1) :: seen) (by
        intro x
        by_cases hx : x = r
        · subst hx
          have : x ∈ pfx ++ [x] := by simp
          simp only [seenLookup, if_pos rfl, this, if_true, hfo]
          rw [idxOf_append_right hnotfo]
          simp [idxOf]
        · have hne : r ≠ x := fun e => hx e.symm
          simp only [seenLookup, hne, if_false]
          rw [hseen x, hfo]
          by_cases hxp : x ∈ pfx
          · have hmem : x ∈ pfx ++ [r] := by simp [hxp]
            rw [if_pos hxp, if_pos hmem,
              idxOf_append_left ((mem_firstOccurrences pfx x).mpr hxp)]
          · have hmem : x ∉ pfx ++ [r] := by
              simp only [List.mem_append, List.mem_singleton]
              rintro (h1 | h1)
              · exact hxp h1
              · exact hx h1
            rw [if_neg hxp, if_neg hmem])
      rw [hlen] at htail
      have hassoc : (pfx ++ [r]) ++ rs = pfx ++ (r :: rs) := by
        rw [List.append_assoc]; rfl
      rw [hassoc] at htail
      have hhead : idxOf r (firstOccurrences (pfx ++ (r :: rs))) = (firstOccurrences pfx).length := by
        rw [firstOccurrences_append]
        rw [idxOf_append_right hnotfo]
        have : (firstOccurrences (r :: rs)).filter (fun b => decide (b ∉ pfx))
            = r :: ((firstOccurrences rs).filter (fun b => decide (b ≠ r))).filter
                (fun b => decide (b ∉ pfx)) := by
          simp only [firstOccurrences, List.filter_cons]
          rw [if_pos (by simpa using hr)]
        rw [this]
        simp [idxOf]
      simp only [routingGroupListAux, hseen r, hr, if_false, List.map_cons, hhead, htail]

/-- C3, confirmed.  The regrouping step partitions the rows into classes
by routing id (the empty string being an ordinary value, hence its own
class), assigns class ids 1, 2, 3, … in order of first appearance, and
gives every row sharing a routing id the same number: the assigned column
is exactly the (1-based) first-appearance index of each row's routing id;
in particular `["B","A","B","C"]` yields `[1,2,1,3]`. -/
theorem C3_routing_regroup_first_appearance :
    (∀ routings : List String,
      routingGroupList routings
        = routings.map (fun r => idxOf r (firstOccurrences routings) + 1)) ∧
    routingGroupList [("B" : String), ("A"), ("B"), ("C")] = [1, 2, 1, 3] := by
  constructor
  · intro routings
    have h := routingGroupListAux_spec routings [] [] (by intro r; simp [seenLookup])
    simpa [routingGroupList, firstOccurrences] using h
  · decide

/-- STEP-LEMMA: the output column of one step is always the raw column
shifted by the incoming offset (trivially so for an empty file). -/
theorem offsetStep_fst (off : Int) (raws : List Int) :
    (offsetStep off raws).1 = raws.map (fun r => r + off) := by
  unfold offsetStep
  by_cases h : raws.length > 0
  · simp [h]
  · have hnil : raws = [] := List.length_eq_zero.mp (by omega)
    subst hnil
    simp

/-- FOLD-LEMMA: the fold produces one output column per input file. -/
theorem offsetFoldAux_length (off : Int) (files : List (List Int)) :
    (offsetFoldAux off files).1.length = files.length := by
  induction files generalizing off with
  | nil => rfl
  | cons f rest ih => simp [offsetFoldAux, ih]

/-- FOLD-LEMMA: the `k`-th output column is the `k`-th raw column shifted
by the offset carried out of the first `k` files. -/
theorem offsetFoldAux_get? (off : Int) (files : List (List Int)) (k : Nat) :
    (offsetFoldAux off files).1.get? k
      = (files.get? k).map
          (fun f => f.map (fun r => r + (offsetFoldAux off (files.take k)).2)) := by
  induction files generalizing off k with
  | nil => simp [offsetFoldAux]
  | cons f rest ih =>
    cases k with
    | zero => simp [offsetFoldAux, offsetStep_fst]
    | succ n =>
      show ((offsetFoldAux (offsetStep off f).2 rest).1).get? n = _
      rw [ih]
      rfl

/-- FOLD-LEMMA: under 1-based raw indices, the carried offset is at every
point the running maximum of all global numbers assigned so far (seeded
with the incoming offset). -/
theorem offsetFoldAux_max (files : List (List Int)) :
    ∀ off : Int, (∀ f ∈ files, ∀ r ∈ f, 1 ≤ r) →
      (offsetFoldAux off files).2
        = ((offsetFoldAux off files).1.flatten).foldl max off := by
  induction files with
  | nil => intro off _; simp [offsetFoldAux]
  | cons f rest ih =>
    intro off hpos
    have hrest : ∀ g ∈ rest, ∀ r ∈ g, 1 ≤ r :=
      fun g hg => hpos g (List.mem_cons_of_mem _ hg)
    match hf : f with
    | [] =>
      simp only [offsetFoldAux, offsetStep, List.length_nil, gt_iff_lt,
        Nat.lt_irrefl, if_false, List.map_nil]
      simpa using ih off hrest
    | r0 :: rs =>
      have h1 : (1 : Int) ≤ r0 := by
        refine hpos f ?_ r0 ?_ <;> simp [hf]
      have hstep : offsetStep off (r0 :: rs)
          = ((r0 + off) :: rs.map (fun r => r + off),
             pdMax ((r0 + off) :: rs.map (fun r => r + off))) := by
        simp [offsetStep]
      have hseed : ((r0 + off) :: rs.map (fun r => r + off)).foldl max off
          = pdMax ((r0 + off) :: rs.map (fun r => r + off)) := by
        show ((rs.map (fun r => r + off)).foldl max (max off (r0 + off)))
            = (rs.map (fun r => r + off)).foldl max (r0 + off)
        rw [max_eq_right (by omega)]
      simp only [offsetFoldAux, hstep, List.flatten_cons, List.foldl_append, hseed]
      exact ih (pdMax ((r0 + off) :: rs.map (fun r => r + off))) hrest

/-- C2, confirmed.  Under the offset-concatenation policy (raw indices
1-based): every row's global number is its raw index plus the offset
carried into its file; the carried offset starts at 0 and after each file
equals the maximum global number assigned so far; hence for files whose
raw column starts with 1, the first row of file `k` receives
1 + (maximum global number assigned in files before `k`). -/
theorem C2_offset_concatenation (files : List (List Int))
    (hpos : ∀ f ∈ files, ∀ r ∈ f, 1 ≤ r) :
    ((offsetFold files).1.length = files.length) ∧
    (∀ k : Nat, (offsetFold files).1.get? k
        = (files.get? k).map (fun f => f.map (fun r => r + offsetAfter files k))) ∧
    (∀ k : Nat, offsetAfter files k
        = ((offsetFoldAux 0 (files.take k)).1.flatten).foldl max 0) ∧
    ((∀ f ∈ files, f.head? = some 1) →
      ∀ (k : Nat) (f : List Int), files.get? k = some f →
        ∃ g, (offsetFold files).1.get? k = some g ∧
          g.head? = some (1 + offsetAfter files k)) := by
  refine ⟨offsetFoldAux_length 0 files, fun k => offsetFoldAux_get? 0 files k, ?_, ?_⟩
  · intro k
    exact offsetFoldAux_max (files.take k) 0
      (fun f hf => hpos f (List.mem_of_mem_take hf))
  · intro hheads k f hk
    refine ⟨f.map (fun r => r + offsetAfter files k), ?_, ?_⟩
    · show (offsetFoldAux 0 files).1.get? k = _
      rw [offsetFoldAux_get? 0 files k, hk]
      rfl
    · have hh : f.head? = some 1 := hheads f (by
        exact List.mem_iff_get?.mpr ⟨k, hk⟩)
      match f, hh with
      | 1 :: _, _ =>
        simp [Int.add_comm]

/-- C2, witness at the two-file batch `[[1,2],[1]]`. -/
theorem C2_offset_concatenation_witness :
    (∀ f ∈ [[(1 : Int), 2], [1]], ∀ r ∈ f, 1 ≤ r) ∧
    (((offsetFold [[(1 : Int), 2], [1]]).1.length
        = ([[(1 : Int), 2], [1]] : List (List Int)).length) ∧
     (∀ k : Nat, (offsetFold [[(1 : Int), 2], [1]]).1.get? k
        = (([[(1 : Int), 2], [1]] : List (List Int)).get? k).map
            (fun f => f.map (fun r => r + offsetAfter [[(1 : Int), 2], [1]] k))) ∧
     (∀ k : Nat, offsetAfter [[(1 : Int), 2], [1]] k
        = ((offsetFoldAux 0 (([[(1 : Int), 2], [1]] : List (List Int)).take k)).1.flatten).foldl max 0) ∧
     ((∀ f ∈ [[(1 : Int), 2], [1]], f.head? = some 1) →
      ∀ (k : Nat) (f : List Int),
        ([[(1 : Int), 2], [1]] : List (List Int)).get? k = some f →
        ∃ g, (offsetFold [[(1 : Int), 2], [1]]).1.get? k = some g ∧
          g.head? = some (1 + offsetAfter [[(1 : Int), 2], [1]] k))) :=
  ⟨by decide, C2_offset_concatenation [[(1 : Int), 2], [1]] (by decide)⟩

/-- SUM-LEMMA: summing an indicator over a duplicate-free list. -/
theorem sum_map_ite_eq {κ : Type} [DecidableEq κ] (a : κ) (c : Int) :
    ∀ l : List κ, l.Nodup →
      (l.map (fun s => if a = s then c else 0)).sum = if a ∈ l then c else 0 := by
  intro l
  induction l with
  | nil => intro _; simp
  | cons x xs ih =>
    intro hl
    rcases List.nodup_cons.mp hl with ⟨hx, hxs⟩
    by_cases hax : a = x
    · subst hax
      rw [List.map_cons, List.sum_cons, if_pos rfl, ih hxs, if_neg hx,
        if_pos (List.mem_cons_self _ _), add_zero]
    · rw [List.map_cons, List.sum_cons, if_neg hax, ih hxs, zero_add]
      by_cases hmem : a ∈ xs
      · rw [if_pos hmem, if_pos (List.mem_cons_of_mem _ hmem)]
      · rw [if_neg hmem, if_neg (by simp [hax, hmem])]

/-- SUM-LEMMA: summing the fiber sums of a key function over a
duplicate-free list of keys collects exactly the rows whose key lies in
the list. -/
theorem sum_fiberwise {α κ : Type} [DecidableEq κ] (key : α → κ) (w : α → Int)
    (l : List κ) (hl : l.Nodup) :
    ∀ rows : List α,
      (l.map (fun s => ((rows.filter (fun r => decide (key r = s))).map w).sum)).sum
        = ((rows.filter (fun r => decide (key r ∈ l))).map w).sum := by
  intro rows
  induction rows with
  | nil => simp
  | cons r rest ih =>
    have hsplit : ∀ s ∈ l,
        ((List.filter (fun x => decide (key x = s)) (r :: rest)).map w).sum
          = (if key r = s then w r else 0)
            + ((rest.filter (fun x => decide (key x = s))).map w).sum := by
      intro s _
      by_cases h : key r = s
      · simp [List.filter_cons, h]
      · simp [List.filter_cons, h]
    rw [List.map_congr_left hsplit, List.sum_map_add, sum_map_ite_eq (key r) (w r) l hl, ih]
    by_cases hmem : key r ∈ l
    · simp [List.filter_cons, hmem]
    · simp [List.filter_cons, hmem]

/-- CELL-LEMMA: a pivot cell is the box-fiber sum inside the sku fiber. -/
theorem finalPivotCell_nested (rows : List ContentRow) (s : String) (b : Int) :
    finalPivotCell rows s b
      = (((rows.filter (fun r => decide (r.upc = s))).filter
            (fun r => decide (r.box = b))).map (fun r => r.qty)).sum := by
  unfold finalPivotCell
  rw [List.filter_filter]
  congr 1
  congr 1
  apply List.filter_congr
  intro a _
  exact Bool.and_comm _ _

/-- ROW-LEMMA: a row total of the totals view is the total quantity of the
rows carrying that sku. -/
theorem pivotRowTotal_eq (rows : List ContentRow) (s : String) :
    pivotRowTotal rows s
      = ((rows.filter (fun r => decide (r.upc = s))).map (fun r => r.qty)).sum := by
  unfold pivotRowTotal
  rw [List.map_congr_left (fun b _ => finalPivotCell_nested rows s b),
    sum_fiberwise (fun r : ContentRow => r.box) (fun r : ContentRow => r.qty)
      (pivotBoxCols rows) (firstOccurrences_nodup _)]
  rw [List.filter_eq_self.mpr]
  intro a ha
  have hmem : a ∈ rows := (List.mem_filter.mp ha).1
  have : a.box ∈ pivotBoxCols rows :=
    (mem_firstOccurrences _ _).mpr (List.mem_map_of_mem (fun r => r.box) hmem)
  simpa using this

/-- C5, confirmed.  For a nonempty merged contents table: the display view
blanks exactly the zero cells of the totals view (which keeps them as the
integer 0), and the grand total computed from the totals view equals the
sum of all input row quantities. -/
theorem C5_pivot_views_and_grand_total (rows : List ContentRow) (hne : rows ≠ []) :
    (∀ (s : String) (b : Int),
      finalPivotDisplayCell rows s b = none ↔ finalPivotCell rows s b = 0) ∧
    grandTotalValue rows = (rows.map (fun r => r.qty)).sum := by
  constructor
  · intro s b
    unfold finalPivotDisplayCell
    by_cases h : finalPivotCell rows s b = 0 <;> simp [h]
  · unfold grandTotalValue
    rw [List.map_congr_left (fun s _ => pivotRowTotal_eq rows s),
      sum_fiberwise (fun r : ContentRow => r.upc) (fun r : ContentRow => r.qty)
        (pivotSkus rows) (firstOccurrences_nodup _)]
    rw [List.filter_eq_self.mpr]
    intro a ha
    have : a.upc ∈ pivotSkus rows :=
      (mem_firstOccurrences _ _).mpr (List.mem_map_of_mem (fun r => r.upc) ha)
    simpa using this

/-- C5, witness at a concrete three-row table (quantities 5, 0, 7). -/
theorem C5_pivot_views_and_grand_total_witness :
    (([⟨("A"), 1, 5, ("p1"), ("r1")⟩, ⟨("A"), 2, 0, ("p1"), ("r1")⟩,
       ⟨("B"), 1, 7, ("p2"), ("r2")⟩] : List ContentRow) ≠ []) ∧
    ((∀ (s : String) (b : Int),
      finalPivotDisplayCell
        [⟨("A"), 1, 5, ("p1"), ("r1")⟩, ⟨("A"), 2, 0, ("p1"), ("r1")⟩,
         ⟨("B"), 1, 7, ("p2"), ("r2")⟩] s b = none ↔
      finalPivotCell
        [⟨("A"), 1, 5, ("p1"), ("r1")⟩, ⟨("A"), 2, 0, ("p1"), ("r1")⟩,
         ⟨("B"), 1, 7, ("p2"), ("r2")⟩] s b = 0) ∧
     grandTotalValue
        [⟨("A"), 1, 5, ("p1"), ("r1")⟩, ⟨("A"), 2, 0, ("p1"), ("r1")⟩,
         ⟨("B"), 1, 7, ("p2"), ("r2")⟩]
       = (([⟨("A"), 1, 5, ("p1"), ("r1")⟩, ⟨("A"), 2, 0, ("p1"), ("r1")⟩,
            ⟨("B"), 1, 7, ("p2"), ("r2")⟩] : List ContentRow).map (fun r => r.qty)).sum) :=
  ⟨by decide, C5_pivot_views_and_grand_total _ (by decide)⟩

/-! ### Claim C4: sku normalization -/

/-- C4, counterexample.  The claim states that every surviving detail row's
normalized sku_code is obtained by stripping a trailing `.0` and all `+`
characters and left-zero-padding to 12, with a result of length exactly 12
consisting only of digits.  On the code this fails: a 13-character UPC
survives cleaning and keeps length 13 (`zfill` pads but never truncates),
and the multi-file normalizer does not strip `+` at all, leaving a
non-digit `+` in its output. -/
theorem C4_counterexample :
    (dfCleanSingle [⟨some ("1234567890123"), 1, some (SkuCell.num 1)⟩]).map (fun r => r.upc)
      = [("1234567890123" : String)] ∧
    (("1234567890123" : String)).length ≠ 12 ∧
    '+' ∈ (normalizeUPCMulti ("1+2")).data := by decide

/-- C4, amended.  The normalized sku_code is produced by stripping a
trailing `.0` (and, in single-file mode only, all `+` characters) and then
left-zero-filling to width 12; whenever the stripped sku string consists
only of digits and has at most 12 characters, the result — in both the
multi-file and the single-file normalizer — has length exactly 12 and
consists only of digits. -/
theorem C4_sku_normalization_amended (s : String)
    (hlen : (stripDot0 s).data.length ≤ 12)
    (hdig : allDigits (stripDot0 s) = true) :
    (normalizeUPCMulti s).length = 12 ∧ allDigits (normalizeUPCMulti s) = true ∧
    (normalizeUPCSingle s).length = 12 ∧ allDigits (normalizeUPCSingle s) = true := by
  have h1 := pyZfill_digit_string (stripDot0 s) hlen hdig
  have h2 : stripPlusChars (stripDot0 s) = stripDot0 s := stripPlusChars_of_digits _ hdig
  unfold normalizeUPCMulti normalizeUPCSingle
  rw [h2]
  exact ⟨h1.1, h1.2, h1.1, h1.2⟩

/-- C4, witness for the amended theorem at the concrete input `4099.0`. -/
theorem C4_sku_normalization_amended_witness :
    ((stripDot0 ("4099.0")).data.length ≤ 12 ∧ allDigits (stripDot0 ("4099.0")) = true) ∧
    ((normalizeUPCMulti ("4099.0")).length = 12 ∧
     allDigits (normalizeUPCMulti ("4099.0")) = true ∧
     (normalizeUPCSingle ("4099.0")).length = 12 ∧
     allDigits (normalizeUPCSingle ("4099.0")) = true) :=
  ⟨⟨by decide, by decide⟩, C4_sku_normalization_amended ("4099.0") (by decide) (by decide)⟩

/-! ### Claim C1: single-file box numbering -/

/-- C1, counterexample.  The claim states that single-file mode applies the
reset-aware continuation policy, so the raw index sequence `[1,2,3,1,2]`
would yield `[1,2,3,4,2]`.  The single-file code applies no such policy:
it copies the raw `Box X` column verbatim, yielding `[1,2,3,1,2]`, which
differs from the claimed output (the spec-modelled policy indeed maps
`[1,2,3,1,2]` to `[1,2,3,4,2]`, but the code does not implement it). -/
theorem C1_counterexample :
    boxNumbersSingle
      [⟨some ("1"), 1, some (SkuCell.num 1)⟩, ⟨some ("2"), 2, some (SkuCell.num 1)⟩,
       ⟨some ("3"), 3, some (SkuCell.num 1)⟩, ⟨some ("4"), 1, some (SkuCell.num 1)⟩,
       ⟨some ("5"), 2, some (SkuCell.num 1)⟩] = [1, 2, 3, 1, 2] ∧
    resetAwareBoxNumbersSpec [1, 2, 3, 1, 2] = [1, 2, 3, 4, 2] ∧
    ([1, 2, 3, 1, 2] : List Int) ≠ [1, 2, 3, 4, 2] := by decide

/-- C1, amended.  In single-file mode no renumbering policy is applied:
for every input table, the output `Box Number` column equals the raw
`Box X` values of the rows surviving cleaning, verbatim and in row order
(so the raw sequence `[1,2,3,1,2]` yields `[1,2,3,1,2]`). -/
theorem C1_single_file_box_verbatim (rows : List SRow) :
    boxNumbersSingle rows
      = (rows.filter (fun r => r.upc.isSome && r.skuUnits.isSome)).map (fun r => r.boxX) := by
  unfold boxNumbersSingle dfCleanSingle
  rw [List.map_map]
  rfl


/-! ### Claim C7: sorting by Customer PO -/

/-- C7: the source sorts the merged rows by Customer PO with the pandas
default (case-sensitive, code-point) string order, then stamps the sheet
by comparing the written column against the case-insensitive
(lowercase-keyed) sorted order.  At the PO values `a`, `B` the sort
places `B` first (code point 66 before 97), and the code's own check
then reports the column as NOT alphabetically arranged: the sort
contradicts the code's own check, which expects the case-insensitive
order `a`, `B` that the claim describes. -/
theorem C7_sort_contradicts_own_check :
    customerPOColumn (sortByCustomerPO
      [⟨("u1"), 1, 1, ("a"), ("r1")⟩, ⟨("u2"), 2, 1, ("B"), ("r2")⟩])
      = [("B"), ("a")] ∧
    poAlphabeticalCheck (customerPOColumn (sortByCustomerPO
      [⟨("u1"), 1, 1, ("a"), ("r1")⟩, ⟨("u2"), 2, 1, ("B"), ("r2")⟩])) = false ∧
    poAlphabeticalCheck [("a"), ("B")] = true := by decide

/-! ### Claim C10: empty cleaned table and the carried offset -/

/-- C10, confirmed.  A processed file whose cleaned detail table is empty
leaves the carried `box_offset` unchanged (later files consume the same
offset) and numbers its dimension rows, if any, consecutively from
`box_offset + 1`. -/
theorem C10_empty_file_offset_and_dims (off : Int) (f : MFile)
    (hread : f.readOk = true) (hcols : f.hasCols = true)
    (hempty : cleanedRows f = []) :
    stepFile off f
      = .ok (.processed
          { contents := []
            dimsRows := mkDimRows (off + 1) 0 f.weights f.dims f.routing }, off) ∧
    (mkDimRows (off + 1) 0 f.weights f.dims f.routing).map (fun r => r.boxNumber)
      = (List.range (max (max f.weights.length f.dims.length) 0)).map
          (fun i : Nat => off + 1 + (i : Int)) := by
  constructor
  · simp [stepFile, hread, hcols, hempty]
  · unfold mkDimRows
    rw [List.map_map]
    rfl

/-- C10, witness: a file with one NaN-UPC row (cleaned table empty), one
weight and no dimension triples, processed at carried offset 5. -/
theorem C10_empty_file_offset_and_dims_witness :
    ((⟨true, true, [⟨none, XCell.intVal 1, some (SkuCell.num 2)⟩],
        [DCell.val 3], [], ("P"), ("R")⟩ : MFile).readOk = true ∧
     (⟨true, true, [⟨none, XCell.intVal 1, some (SkuCell.num 2)⟩],
        [DCell.val 3], [], ("P"), ("R")⟩ : MFile).hasCols = true ∧
     cleanedRows (⟨true, true, [⟨none, XCell.intVal 1, some (SkuCell.num 2)⟩],
        [DCell.val 3], [], ("P"), ("R")⟩ : MFile) = []) ∧
    (stepFile 5 (⟨true, true, [⟨none, XCell.intVal 1, some (SkuCell.num 2)⟩],
        [DCell.val 3], [], ("P"), ("R")⟩ : MFile)
      = .ok (.processed
          { contents := []
            dimsRows := mkDimRows (5 + 1) 0
              (⟨true, true, [⟨none, XCell.intVal 1, some (SkuCell.num 2)⟩],
                [DCell.val 3], [], ("P"), ("R")⟩ : MFile).weights
              (⟨true, true, [⟨none, XCell.intVal 1, some (SkuCell.num 2)⟩],
                [DCell.val 3], [], ("P"), ("R")⟩ : MFile).dims
              (⟨true, true, [⟨none, XCell.intVal 1, some (SkuCell.num 2)⟩],
                [DCell.val 3], [], ("P"), ("R")⟩ : MFile).routing }, 5) ∧
     (mkDimRows (5 + 1) 0
        (⟨true, true, [⟨none, XCell.intVal 1, some (SkuCell.num 2)⟩],
          [DCell.val 3], [], ("P"), ("R")⟩ : MFile).weights
        (⟨true, true, [⟨none, XCell.intVal 1, some (SkuCell.num 2)⟩],
          [DCell.val 3], [], ("P"), ("R")⟩ : MFile).dims
        (⟨true, true, [⟨none, XCell.intVal 1, some (SkuCell.num 2)⟩],
          [DCell.val 3], [], ("P"), ("R")⟩ : MFile).routing).map (fun r => r.boxNumber)
      = (List.range (max (max
          (⟨true, true, [⟨none, XCell.intVal 1, some (SkuCell.num 2)⟩],
            [DCell.val 3], [], ("P"), ("R")⟩ : MFile).weights.length
          (⟨true, true, [⟨none, XCell.intVal 1, some (SkuCell.num 2)⟩],
            [DCell.val 3], [], ("P"), ("R")⟩ : MFile).dims.length) 0)).map
          (fun i : Nat => 5 + 1 + (i : Int))) :=
  ⟨⟨by decide, by decide, by decide⟩,
   C10_empty_file_offset_and_dims 5 _ (by decide) (by decide) (by decide)⟩



/-! ### Claim C8: per-file error isolation -/

/-- C8, counterexample.  The claim states that no per-file error aborts
the whole run.  A file whose `Box X` column holds a value `astype(int)`
cannot convert makes the unguarded conversion raise: the whole batch
aborts with the exception, and the second (well-formed) file is never
processed — no outcome list is produced at all. -/
theorem C8_counterexample :
    processBatch
      [⟨true, true, [⟨some ("123"), XCell.bad, some (SkuCell.num 1)⟩],
        [], [], ("P1"), ("R1")⟩,
       ⟨true, true, [⟨some ("456"), XCell.intVal 1, some (SkuCell.num 2)⟩],
        [], [], ("P2"), ("R2")⟩]
      = .error ("cannot convert Box X column to int") := rfl

/-- CONVERT-LEMMA: the box-column cast succeeds when no cell is bad. -/
theorem convertBoxColumn_ok (cells : List XCell) (h : ∀ c ∈ cells, c ≠ XCell.bad) :
    ∃ l, convertBoxColumn cells = .ok l := by
  induction cells with
  | nil => exact ⟨[], rfl⟩
  | cons c rest ih =>
    match c, h c (List.mem_cons_self _ _) with
    | XCell.intVal n, _ =>
      obtain ⟨l, hl⟩ := ih (fun x hx => h x (List.mem_cons_of_mem _ hx))
      exact ⟨n :: l, by simp [convertBoxColumn, hl, Except.map]⟩

/-- STEP-LEMMA: a step on a file free of conversion errors cannot abort,
and records the outcome prescribed by the file's failure mode. -/
theorem stepFile_no_abort (off : Int) (f : MFile) (h : fileNoConvError f) :
    ∃ o off2, stepFile off f = .ok (o, off2) ∧ outcomeSpec f o := by
  by_cases hr : f.readOk = false
  · refine ⟨.skippedRead, off, by simp [stepFile, hr], ?_, ?_, ?_⟩
    · intro _; rfl
    · intro h1 _; rw [h1] at hr; simp at hr
    · intro h1 _; rw [h1] at hr; simp at hr
  · have hrt : f.readOk = true := by
      cases hb : f.readOk
      · exact absurd hb hr
      · rfl
    by_cases hc : f.hasCols = false
    · refine ⟨.skippedCols, off, by simp [stepFile, hrt, hc], ?_, ?_, ?_⟩
      · intro h1; rw [h1] at hrt; simp at hrt
      · intro _ _; rfl
      · intro _ h2; rw [h2] at hc; simp at hc
    · have hct : f.hasCols = true := by
        cases hb : f.hasCols
        · exact absurd hb hc
        · rfl
      have hconv : ∀ r ∈ cleanedRows f, r.boxX ≠ XCell.bad := by
        rcases h with h1 | h1 | h1
        · rw [h1] at hrt; simp at hrt
        · rw [h1] at hct; simp at hct
        · exact h1
      have hproc : ∃ p off2, stepFile off f = Except.ok (Outcome.processed p, off2) := by
        unfold stepFile
        rw [if_neg (by rw [hrt]; simp), if_neg (by rw [hct]; simp)]
        by_cases hlen : (cleanedRows f).length > 0
        · rw [if_pos hlen]
          obtain ⟨raws, hraws⟩ := convertBoxColumn_ok ((cleanedRows f).map (fun r => r.boxX))
            (by
              intro c hcm
              obtain ⟨r, hrm, hre⟩ := List.mem_map.mp hcm
              rw [← hre]
              exact hconv r hrm)
          rw [hraws]
          exact ⟨_, _, rfl⟩
        · rw [if_neg hlen]
          exact ⟨_, _, rfl⟩
      obtain ⟨p, off2, hstep⟩ := hproc
      refine ⟨Outcome.processed p, off2, hstep, ?_, ?_, ?_⟩
      · intro h1; rw [h1] at hrt; simp at hrt
      · intro _ h2; rw [h2] at hct; simp at hct
      · intro _ _; exact ⟨p, rfl⟩

/-- BATCH-LEMMA: a batch of files free of conversion errors processes to
completion with one recorded outcome per file. -/
theorem processBatchAux_no_abort :
    ∀ (files : List MFile) (off : Int),
      (∀ f ∈ files, fileNoConvError f) →
      ∃ outs offE, processBatchAux off files = .ok (outs, offE) ∧
        outs.length = files.length ∧
        ∀ k, k < files.length →
          ∃ f o, files.get? k = some f ∧ outs.get? k = some o ∧ outcomeSpec f o := by
  intro files
  induction files with
  | nil =>
    intro off _
    exact ⟨[], off, rfl, rfl, by intro k hk; simp at hk⟩
  | cons f rest ih =>
    intro off hall
    obtain ⟨o, off2, hstep, hspec⟩ := stepFile_no_abort off f (hall f (List.mem_cons_self _ _))
    obtain ⟨outs, offE, hrest, hlen, hpoint⟩ :=
      ih off2 (fun g hg => hall g (List.mem_cons_of_mem _ hg))
    refine ⟨o :: outs, offE, ?_, by simp [hlen], ?_⟩
    · simp [processBatchAux, hstep, hrest]
    · intro k hk
      cases k with
      | zero => exact ⟨f, o, rfl, rfl, hspec⟩
      | succ n =>
        obtain ⟨g, o2, h1, h2, h3⟩ := hpoint n (by simpa using hk)
        exact ⟨g, o2, h1, h2, h3⟩

/-- C8, amended.  Failures the loop guards — an unreadable or unparseable
file, or one missing the required columns — only skip that file with a
recorded warning and processing continues: a batch in which every file
either is skipped for one of those reasons or has a convertible `Box X`
column completes with one outcome per file, each as prescribed.  (The
unguarded `astype(int)` conversion remains the one per-file error that
aborts the whole run.) -/
theorem C8_error_isolation_amended (files : List MFile)
    (h : ∀ f ∈ files, fileNoConvError f) :
    ∃ outs offE, processBatch files = .ok (outs, offE) ∧
      outs.length = files.length ∧
      ∀ k, k < files.length →
        ∃ f o, files.get? k = some f ∧ outs.get? k = some o ∧ outcomeSpec f o :=
  processBatchAux_no_abort files 0 h

/-- C8, witness: a batch of an unreadable file, a file missing columns,
and a fully processable file. -/
theorem C8_error_isolation_amended_witness :
    (∀ f ∈ ([⟨false, true, [], [], [], (""), ("")⟩,
             ⟨true, false, [], [], [], (""), ("")⟩,
             ⟨true, true, [⟨some ("1"), XCell.intVal 1, some (SkuCell.num 2)⟩],
               [], [], ("P"), ("R")⟩] : List MFile), fileNoConvError f) ∧
    (∃ outs offE,
      processBatch [⟨false, true, [], [], [], (""), ("")⟩,
             ⟨true, false, [], [], [], (""), ("")⟩,
             ⟨true, true, [⟨some ("1"), XCell.intVal 1, some (SkuCell.num 2)⟩],
               [], [], ("P"), ("R")⟩] = .ok (outs, offE) ∧
      outs.length = ([⟨false, true, [], [], [], (""), ("")⟩,
             ⟨true, false, [], [], [], (""), ("")⟩,
             ⟨true, true, [⟨some ("1"), XCell.intVal 1, some (SkuCell.num 2)⟩],
               [], [], ("P"), ("R")⟩] : List MFile).length ∧
      ∀ k, k < ([⟨false, true, [], [], [], (""), ("")⟩,
             ⟨true, false, [], [], [], (""), ("")⟩,
             ⟨true, true, [⟨some ("1"), XCell.intVal 1, some (SkuCell.num 2)⟩],
               [], [], ("P"), ("R")⟩] : List MFile).length →
        ∃ f o, ([⟨false, true, [], [], [], (""), ("")⟩,
             ⟨true, false, [], [], [], (""), ("")⟩,
             ⟨true, true, [⟨some ("1"), XCell.intVal 1, some (SkuCell.num 2)⟩],
               [], [], ("P"), ("R")⟩] : List MFile).get? k = some f ∧
          outs.get? k = some o ∧ outcomeSpec f o) :=
  ⟨by decide, C8_error_isolation_amended _ (by decide)⟩

/-! ### Claim C9: the empty-batch terminal state -/

/-- C9, counterexample.  The claim states that when zero files survive
validation no output artifact is produced.  A batch holding one readable
file that fails the required-columns validation leaves zero surviving
files, yet the run still assembles and offers an output workbook (with
empty content sheets). -/
theorem C9_counterexample :
    runFormatter [⟨true, false, [], [], [], (""), ("")⟩]
      = .ok (some { contents := [], dims := [], summary := [] }) := rfl

/-- SKIP-LEMMA: a batch in which every file fails at the read or at the
column check is processed without touching the offset, every outcome a
skip that contributes nothing to either ledger. -/
theorem processBatchAux_all_skipped :
    ∀ (files : List MFile) (off : Int),
      (∀ f ∈ files, f.readOk = false ∨ f.hasCols = false) →
      ∃ outs, processBatchAux off files = .ok (outs, off) ∧
        ∀ o ∈ outs, outcomeContents o = [] ∧ outcomeDims o = [] := by
  intro files
  induction files with
  | nil => intro off _; exact ⟨[], rfl, by intro o ho; simp at ho⟩
  | cons f rest ih =>
    intro off hall
    obtain ⟨outs, hrest, hcontrib⟩ := ih off (fun g hg => hall g (List.mem_cons_of_mem _ hg))
    by_cases hr : f.readOk = false
    · refine ⟨Outcome.skippedRead :: outs, ?_, ?_⟩
      · simp [processBatchAux, stepFile, hr, hrest]
      · intro o ho
        rcases List.mem_cons.mp ho with rfl | ho2
        · exact ⟨rfl, rfl⟩
        · exact hcontrib o ho2
    · have hrt : f.readOk = true := by
        cases hb : f.readOk
        · exact absurd hb hr
        · rfl
      have hc : f.hasCols = false := by
        rcases hall f (List.mem_cons_self _ _) with h1 | h1
        · exact absurd h1 hr
        · exact h1
      refine ⟨Outcome.skippedCols :: outs, ?_, ?_⟩
      · simp [processBatchAux, stepFile, hrt, hc, hrest]
      · intro o ho
        rcases List.mem_cons.mp ho with rfl | ho2
        · exact ⟨rfl, rfl⟩
        · exact hcontrib o ho2

/-- C9, amended.  With zero valid Excel files extracted the run shows a
warning and produces nothing — no artifact and no escaping exception.
But when at least one file is extracted and every file then fails
per-file validation (read failure or missing columns), an output
workbook is still produced, with empty contents, dimensions and summary
sheets. -/
theorem C9_empty_state_amended (files : List MFile)
    (hskip : ∀ f ∈ files, f.readOk = false ∨ f.hasCols = false) :
    runFormatter ([] : List MFile) = .ok none ∧
    (files ≠ [] → runFormatter files
        = .ok (some { contents := [], dims := [], summary := [] })) := by
  constructor
  · rfl
  · intro hne
    obtain ⟨g, gs, rfl⟩ := List.exists_cons_of_ne_nil hne
    obtain ⟨outs, hok, hcontrib⟩ := processBatchAux_all_skipped (g :: gs) 0 hskip
    have hmc : mergedContents outs = [] := by
      unfold mergedContents
      rw [List.flatten_eq_nil_iff]
      intro l hl
      obtain ⟨o, ho, hoe⟩ := List.mem_map.mp hl
      rw [← hoe]
      exact (hcontrib o ho).1
    have hmd : mergedDims outs = [] := by
      unfold mergedDims
      rw [List.flatten_eq_nil_iff]
      intro l hl
      obtain ⟨o, ho, hoe⟩ := List.mem_map.mp hl
      rw [← hoe]
      exact (hcontrib o ho).2
    have hasm : assembleArtifact outs
        = { contents := [], dims := [], summary := [] } := by
      unfold assembleArtifact
      rw [hmc, hmd]
      rfl
    show (match processBatchAux 0 (g :: gs) with
      | Except.error e => Except.error e
      | Except.ok (outs2, _) => Except.ok (some (assembleArtifact outs2)))
      = Except.ok (some { contents := [], dims := [], summary := [] })
    rw [hok]
    show Except.ok (some (assembleArtifact outs))
      = Except.ok (some { contents := [], dims := [], summary := [] })
    rw [hasm]

/-- C9, witness: one unreadable file. -/
theorem C9_empty_state_amended_witness :
    (∀ f ∈ ([⟨false, true, [], [], [], (""), ("")⟩] : List MFile),
      f.readOk = false ∨ f.hasCols = false) ∧
    (runFormatter ([] : List MFile) = .ok none ∧
     (([⟨false, true, [], [], [], (""), ("")⟩] : List MFile) ≠ [] →
       runFormatter [⟨false, true, [], [], [], (""), ("")⟩]
        = .ok (some { contents := [], dims := [], summary := [] }))) :=
  ⟨by decide, C9_empty_state_amended _ (by decide)⟩



/-! ### Claim C6: the post-merge dimension pipeline -/

/-- C6, counterexample.  The claim states that every row missing any of
weight/length/width/height is dropped.  The per-file padding writes `""`
(not NaN) into missing cells, and `dropna` keeps such rows: a merged
table whose first row has blank dimension columns (a file with a weight
but no dimension-pattern match) passes the whole pipeline and appears in
the final output with its blanks. -/
theorem C6_counterexample :
    finalDimsAssemble
      [⟨1, DCell.val 10, DCell.blankStr, DCell.blankStr, DCell.blankStr, ("RA")⟩,
       ⟨2, DCell.val 5, DCell.val 1, DCell.val 2, DCell.val 3, ("RB")⟩]
      [("RA"), ("RB")]
      = [⟨1, DCell.val 10, DCell.blankStr, DCell.blankStr, DCell.blankStr, ("RA")⟩,
         ⟨2, DCell.val 5, DCell.val 1, DCell.val 2, DCell.val 3, ("RB")⟩] ∧
    (finalDimsAssemble
      [⟨1, DCell.val 10, DCell.blankStr, DCell.blankStr, DCell.blankStr, ("RA")⟩,
       ⟨2, DCell.val 5, DCell.val 1, DCell.val 2, DCell.val 3, ("RB")⟩]
      [("RA"), ("RB")]).any (fun r => decide (r.length = DCell.blankStr)) = true :=
  ⟨rfl, rfl⟩

/-- DEDUP-LEMMA: every survivor of the keep-first deduplication is the
first row of the input carrying its routing id. -/
theorem dropDuplicatesByRouting_find? :
    ∀ (l : List DimRow), ∀ r ∈ dropDuplicatesByRouting l,
      l.find? (fun x => decide (x.routing = r.routing)) = some r := by
  intro l
  induction l with
  | nil => intro r hr; simp [dropDuplicatesByRouting] at hr
  | cons x rest ih =>
    intro r hr
    rcases List.mem_cons.mp hr with rfl | hr2
    · simp [List.find?_cons]
    · have hfilter := List.mem_filter.mp hr2
      have hne : r.routing ≠ x.routing := by simpa using hfilter.2
      have hx : decide (x.routing = r.routing) = false := by
        simp only [decide_eq_false_iff_not]
        exact fun e => hne e.symm
      simp only [List.find?_cons, hx]
      exact ih r hfilter.1

/-- DEDUP-LEMMA: deduplication only keeps input rows. -/
theorem mem_of_mem_dropDuplicates (l : List DimRow) (r : DimRow)
    (h : r ∈ dropDuplicatesByRouting l) : r ∈ l :=
  List.mem_of_find?_eq_some (dropDuplicatesByRouting_find? l r h)

/-- DEDUP-LEMMA: every input routing id still occurs after deduplication. -/
theorem dropDuplicates_complete :
    ∀ (l : List DimRow), ∀ r ∈ l,
      ∃ x ∈ dropDuplicatesByRouting l, x.routing = r.routing := by
  intro l
  induction l with
  | nil => intro r hr; simp at hr
  | cons a rest ih =>
    intro r hr
    rcases List.mem_cons.mp hr with h1 | hr2
    · subst h1
      exact ⟨r, List.mem_cons_self _ _, rfl⟩
    · obtain ⟨x, hx, hxe⟩ := ih r hr2
      by_cases hxa : x.routing = a.routing
      · exact ⟨a, List.mem_cons_self _ _, by rw [← hxa, hxe]⟩
      · refine ⟨x, ?_, hxe⟩
        exact List.mem_cons_of_mem _ (List.mem_filter.mpr ⟨hx, by simpa using hxa⟩)

/-- DEDUP-LEMMA: deduplication does not change which routing ids occur. -/
theorem dropDuplicates_any_routing (l : List DimRow) (s : String) :
    (dropDuplicatesByRouting l).any (fun r => decide (r.routing = s))
      = l.any (fun r => decide (r.routing = s)) := by
  rw [Bool.eq_iff_iff, List.any_eq_true, List.any_eq_true]
  constructor
  · rintro ⟨r, hr, hp⟩
    exact ⟨r, mem_of_mem_dropDuplicates l r hr, hp⟩
  · rintro ⟨r, hr, hp⟩
    obtain ⟨x, hx, hxe⟩ := dropDuplicates_complete l r hr
    refine ⟨x, hx, ?_⟩
    rw [hxe]
    exact hp

/-- REORDER-LEMMA: when every routing id occurs in the summary order, the
leftover (NaN-category) block is empty. -/
theorem reorder_all_present (rows : List DimRow) (order : List String)
    (hall : ∀ r ∈ rows, r.routing ∈ order) :
    reorderBySummaryRouting rows order
      = order.filterMap (fun s => rows.find? (fun r => decide (r.routing = s))) := by
  unfold reorderBySummaryRouting
  rw [List.filter_eq_nil_iff.mpr, List.append_nil]
  intro r hr
  simp [hall r hr]

/-- REORDER-LEMMA: the routing column after the reorder is the summary
order filtered to the routing ids that occur. -/
theorem filterMap_find?_map_routing (rows : List DimRow) :
    ∀ order : List String,
      (order.filterMap (fun s => rows.find? (fun r => decide (r.routing = s)))).map
          (fun r => r.routing)
        = order.filter (fun s => rows.any (fun r => decide (r.routing = s))) := by
  intro order
  induction order with
  | nil => rfl
  | cons s rest ih =>
    rw [List.filterMap_cons]
    cases hf : rows.find? (fun r => decide (r.routing = s)) with
    | none =>
      have hany : rows.any (fun r => decide (r.routing = s)) = false := by
        cases hA : rows.any (fun r => decide (r.routing = s))
        · rfl
        · obtain ⟨x, hx, hp⟩ := List.any_eq_true.mp hA
          exact absurd hp (List.find?_eq_none.mp hf x hx)
      rw [List.filter_cons, if_neg (by rw [hany]; exact Bool.false_ne_true)]
      exact ih
    | some r =>
      have hrs : r.routing = s := by
        have := List.find?_some hf
        simpa using this
      have hany : rows.any (fun r => decide (r.routing = s)) = true :=
        List.any_eq_true.mpr ⟨r, List.mem_of_find?_eq_some hf, by simpa using hrs⟩
      rw [List.map_cons, ih, List.filter_cons, if_pos hany, hrs]

/-- REORDER-LEMMA: the reordered rows all come from the input. -/
theorem mem_filterMap_find? (rows : List DimRow) (order : List String) (r : DimRow)
    (h : r ∈ order.filterMap (fun s => rows.find? (fun x => decide (x.routing = s)))) :
    r ∈ rows := by
  obtain ⟨s, _, hf⟩ := List.mem_filterMap.mp h
  exact List.mem_of_find?_eq_some hf

/-- RENUMBER-LEMMA: the assigned box-number column is consecutive from `n`. -/
theorem renumberDimsFrom_map_box :
    ∀ (l : List DimRow) (n : Int),
      (renumberDimsFrom n l).map (fun r => r.boxNumber)
        = (List.range l.length).map (fun i : Nat => n + (i : Int)) := by
  intro l
  induction l with
  | nil => intro n; rfl
  | cons r rest ih =>
    intro n
    show n :: (renumberDimsFrom (n + 1) rest).map (fun r => r.boxNumber) = _
    rw [ih (n + 1), List.length_cons, List.range_succ_eq_map, List.map_cons, List.map_map]
    congr 1
    · simp
    · apply List.map_congr_left
      intro i _
      show (n + 1) + (i : Int) = n + ((Nat.succ i : Nat) : Int)
      push_cast
      ring

/-- RENUMBER-LEMMA: renumbering only rewrites the box-number column. -/
theorem renumberDimsFrom_map_routing :
    ∀ (l : List DimRow) (n : Int),
      (renumberDimsFrom n l).map (fun r => r.routing) = l.map (fun r => r.routing) := by
  intro l
  induction l with
  | nil => intro n; rfl
  | cons r rest ih =>
    intro n
    show r.routing :: _ = r.routing :: _
    rw [ih (n + 1)]

/-- RENUMBER-LEMMA: renumbering preserves the number of rows. -/
theorem renumberDimsFrom_length :
    ∀ (l : List DimRow) (n : Int), (renumberDimsFrom n l).length = l.length := by
  intro l
  induction l with
  | nil => intro n; rfl
  | cons r rest ih =>
    intro n
    show (renumberDimsFrom (n + 1) rest).length + 1 = rest.length + 1
    rw [ih (n + 1)]

/-- RENUMBER-LEMMA: every renumbered row keeps all its other columns. -/
theorem renumberDimsFrom_fields :
    ∀ (l : List DimRow) (n : Int), ∀ r ∈ renumberDimsFrom n l,
      ∃ src ∈ l, r.weight = src.weight ∧ r.length = src.length ∧
        r.width = src.width ∧ r.height = src.height ∧ r.routing = src.routing := by
  intro l
  induction l with
  | nil => intro n r hr; simp [renumberDimsFrom] at hr
  | cons x rest ih =>
    intro n r hr
    rcases List.mem_cons.mp hr with rfl | hr2
    · exact ⟨x, List.mem_cons_self _ _, rfl, rfl, rfl, rfl, rfl⟩
    · obtain ⟨src, hs, he⟩ := ih (n + 1) r hr2
      exact ⟨src, List.mem_cons_of_mem _ hs, he⟩

/-- C6, amended.  After concatenating the per-file dimension records:
rows with a NaN in any of weight/length/width/height are dropped, but
rows padded with `""` blanks are retained (rows missing dimensions
survive); the survivors are deduplicated by routing id keeping the first
occurrence; they are reordered to match the summary routing order (stated
here for a duplicate-free summary list covering every surviving routing
id, which is what a crash-free run provides); and box numbers are
reassigned consecutively from 1 over the surviving rows. -/
theorem C6_dims_pipeline_amended (rows : List DimRow) (order : List String)
    (hnd : order.Nodup)
    (hsub : ∀ r ∈ rows, dimRowHasNan r = false → r.routing ∈ order)
    (hne : rows ≠ []) :
    ((finalDimsAssemble rows order).map (fun r => r.routing)
        = order.filter (fun s => (dropnaDims rows).any (fun r => decide (r.routing = s)))) ∧
    (∀ r ∈ finalDimsAssemble rows order, dimRowHasNan r = false) ∧
    ((finalDimsAssemble rows order).map (fun r => r.routing)).Nodup ∧
    ((finalDimsAssemble rows order).map (fun r => r.boxNumber)
        = (List.range (finalDimsAssemble rows order).length).map
            (fun i : Nat => 1 + (i : Int))) ∧
    (∀ r ∈ finalDimsAssemble rows order, ∃ src,
      (dropnaDims rows).find? (fun x => decide (x.routing = r.routing)) = some src ∧
      r.weight = src.weight ∧ r.length = src.length ∧ r.width = src.width ∧
      r.height = src.height ∧ r.routing = src.routing) := by
  have hrowsne : rows.isEmpty = false := by
    cases rows
    · exact absurd rfl hne
    · rfl
  have hd1nan : ∀ r ∈ dropnaDims rows, dimRowHasNan r = false := by
    intro r hr
    have := (List.mem_filter.mp hr).2
    simpa using this
  have hd1mem : ∀ r ∈ dropnaDims rows, r ∈ rows := fun r hr => (List.mem_filter.mp hr).1
  by_cases hord : order.isEmpty
  · have hordnil : order = [] := by
      cases order
      · rfl
      · simp at hord
    have hd1nil : dropnaDims rows = [] := by
      rw [List.eq_nil_iff_forall_not_mem]
      intro r hr
      have hmem := hsub r (hd1mem r hr) (hd1nan r hr)
      rw [hordnil] at hmem
      simp at hmem
    have hout : finalDimsAssemble rows order = [] := by
      unfold finalDimsAssemble
      rw [if_neg (by rw [hrowsne]; exact Bool.false_ne_true), if_pos hord, hd1nil]
      rfl
    rw [hout, hordnil]
    refine ⟨rfl, ?_, List.nodup_nil, rfl, ?_⟩
    · intro r hr; simp at hr
    · intro r hr; simp at hr
  · have hall2 : ∀ r ∈ dropDuplicatesByRouting (dropnaDims rows), r.routing ∈ order := by
      intro r hr
      have h1 := mem_of_mem_dropDuplicates _ r hr
      exact hsub r (hd1mem r h1) (hd1nan r h1)
    have hout : finalDimsAssemble rows order
        = renumberDimsFrom 1
            (order.filterMap (fun s =>
              (dropDuplicatesByRouting (dropnaDims rows)).find?
                (fun r => decide (r.routing = s)))) := by
      unfold finalDimsAssemble
      rw [if_neg (by rw [hrowsne]; exact Bool.false_ne_true), if_neg hord,
        reorder_all_present _ _ hall2]
    have hcol : (finalDimsAssemble rows order).map (fun r => r.routing)
        = order.filter (fun s =>
            (dropnaDims rows).any (fun r => decide (r.routing = s))) := by
      rw [hout, renumberDimsFrom_map_routing, filterMap_find?_map_routing]
      apply List.filter_congr
      intro s _
      exact dropDuplicates_any_routing (dropnaDims rows) s
    refine ⟨hcol, ?_, ?_, ?_, ?_⟩
    · intro r hr
      rw [hout] at hr
      obtain ⟨src, hsrc, hw, hl, hwid, hh, hrt⟩ := renumberDimsFrom_fields _ 1 r hr
      have hsrc2 : src ∈ dropDuplicatesByRouting (dropnaDims rows) :=
        mem_filterMap_find? _ _ src hsrc
      have hsrc3 : src ∈ dropnaDims rows := mem_of_mem_dropDuplicates _ src hsrc2
      have hnan := hd1nan src hsrc3
      simp only [dimRowHasNan] at hnan ⊢
      rw [hw, hl, hwid, hh]
      exact hnan
    · rw [hcol]
      exact List.Nodup.filter _ hnd
    · rw [hout, renumberDimsFrom_map_box, renumberDimsFrom_length]
    · intro r hr
      rw [hout] at hr
      obtain ⟨src, hsrc, hw, hl, hwid, hh, hrt⟩ := renumberDimsFrom_fields _ 1 r hr
      have hsrc2 : src ∈ dropDuplicatesByRouting (dropnaDims rows) :=
        mem_filterMap_find? _ _ src hsrc
      have hfind := dropDuplicatesByRouting_find? _ src hsrc2
      refine ⟨src, ?_, hw, hl, hwid, hh, hrt⟩
      rw [hrt]
      exact hfind

/-- C6, witness for the amended theorem: one complete row under the
one-entry summary order. -/
theorem C6_dims_pipeline_amended_witness :
    (([("R1")] : List String).Nodup ∧
     (∀ r ∈ ([⟨7, DCell.val 2, DCell.val 3, DCell.val 4, DCell.val 5, ("R1")⟩] : List DimRow),
        dimRowHasNan r = false → r.routing ∈ ([("R1")] : List String)) ∧
     ([⟨7, DCell.val 2, DCell.val 3, DCell.val 4, DCell.val 5, ("R1")⟩] : List DimRow) ≠ []) ∧
    (((finalDimsAssemble [⟨7, DCell.val 2, DCell.val 3, DCell.val 4, DCell.val 5, ("R1")⟩]
          [("R1")]).map (fun r => r.routing)
        = ([("R1")] : List String).filter (fun s =>
            (dropnaDims [⟨7, DCell.val 2, DCell.val 3, DCell.val 4, DCell.val 5, ("R1")⟩]).any
              (fun r => decide (r.routing = s)))) ∧
     (∀ r ∈ finalDimsAssemble [⟨7, DCell.val 2, DCell.val 3, DCell.val 4, DCell.val 5, ("R1")⟩]
          [("R1")], dimRowHasNan r = false) ∧
     ((finalDimsAssemble [⟨7, DCell.val 2, DCell.val 3, DCell.val 4, DCell.val 5, ("R1")⟩]
          [("R1")]).map (fun r => r.routing)).Nodup ∧
     ((finalDimsAssemble [⟨7, DCell.val 2, DCell.val 3, DCell.val 4, DCell.val 5, ("R1")⟩]
          [("R1")]).map (fun r => r.boxNumber)
        = (List.range (finalDimsAssemble
            [⟨7, DCell.val 2, DCell.val 3, DCell.val 4, DCell.val 5, ("R1")⟩]
            [("R1")]).length).map (fun i : Nat => 1 + (i : Int))) ∧
     (∀ r ∈ finalDimsAssemble [⟨7, DCell.val 2, DCell.val 3, DCell.val 4, DCell.val 5, ("R1")⟩]
          [("R1")], ∃ src,
        (dropnaDims [⟨7, DCell.val 2, DCell.val 3, DCell.val 4, DCell.val 5, ("R1")⟩]).find?
          (fun x => decide (x.routing = r.routing)) = some src ∧
        r.weight = src.weight ∧ r.length = src.length ∧ r.width = src.width ∧
        r.height = src.height ∧ r.routing = src.routing)) :=
  ⟨⟨by decide, by decide, by decide⟩,
   C6_dims_pipeline_amended _ _ (by decide) (by decide) (by decide)⟩


end SMW
